import Mathlib

/-!
# GFAse: alignment reader, contact-map builder and contact graph

A shallow embedding of `src/Bam.cpp` (the flag predicates, the two
`for_alignment_in_bam` overloads, `update_contact_map` and the callback of
`parse_unpaired_bam_file`) together with the part of the contact graph and of
the identifier registry that this code and `src/test/test_contact_graph.cpp`
call.  The headers `Bam.hpp`, `ContactGraph.hpp` and `IncrementalIdMap.hpp` are
not part of the sources at hand, so the graph and the registry are modelled from
the specification; every such definition says so in its doc comment.

Conventions.
* A `std::string` is a list of characters; `NUL` is the character with code 0.
  `cpp_index` is `std::string::operator[]` on a const string: the character at
  a position below `size()`, `NUL` at `size()` itself, undefined beyond.
* A call that throws is a result `Except.error`; the state left behind by a call
  that throws is not modelled, the exception leaves `parse_unpaired_bam_file`.
* Node ids, coverages and edge weights are integers.  The registry issues its
  ids densely from 0, so the cast `int32_t(id_map.try_insert(..))` is the
  identity on every id below `2^31`, and no wrap-around is modelled.
-/

namespace gfase

/-! ## Strings -/

/-- A `std::string`: its characters in order. -/
abbrev CppString := List Char

/-- The terminator `'\0'`. -/
def NUL : Char := Char.ofNat 0

/-- `s[i]` on a const `std::string`: `s[size()]` is a reference to `'\0'`, any
larger index is undefined behaviour (`none`). -/
def cpp_index (s : CppString) (i : Nat) : Option Char :=
  if h : i < s.length then some (s.get ⟨i, h⟩)
  else if i = s.length then some NUL
  else none

/-! ## Errors -/

/-- The error taxonomy of the specification, and undefined behaviour. -/
inductive Error where
  | NotFoundError
  | InvalidArgumentError
  | UndefinedBehaviour
  deriving DecidableEq

/-! ## `Bam`: flag predicates (`Bam.cpp` 88-110) -/

namespace Bam

/-- The cast `uint16_t(flag)`. -/
def uint16_t (flag : Nat) : Nat := flag % 65536

/-- `return (uint16_t(flag) >> 6) & uint16_t(1);` converted to `bool`. -/
def is_first_mate (flag : Nat) : Bool := ((uint16_t flag >>> 6) &&& uint16_t 1) != 0

/-- `return (uint16_t(flag) >> 7) & uint16_t(1);` converted to `bool`. -/
def is_second_mate (flag : Nat) : Bool := ((uint16_t flag >>> 7) &&& uint16_t 1) != 0

/-- `return (uint16_t(flag) >> 8) & uint16_t(1);` converted to `bool`. -/
def is_not_primary (flag : Nat) : Bool := ((uint16_t flag >>> 8) &&& uint16_t 1) != 0

/-- `return (not is_not_primary(flag));` -/
def is_primary (flag : Nat) : Bool := !(is_not_primary flag)

/-- `return (uint16_t(flag) >> 11) & uint16_t(1);` converted to `bool`. -/
def is_supplementary (flag : Nat) : Bool := ((uint16_t flag >>> 11) &&& uint16_t 1) != 0

end Bam

/-! ## `Bam`: the two readers (`Bam.cpp` 39-76) -/

/-- The header of the alignment file: the reference names, `n_targets` being
their number. -/
structure BamHeader where
  target_name : List CppString
  deriving DecidableEq

/-- The number of reference sequences of the header. -/
def BamHeader.n_targets (h : BamHeader) : Int := h.target_name.length

/-- One record as `sam_read1` leaves it in `alignment`: the query name and the
fields `core.tid`, `core.qual` and `core.flag`. -/
structure BamRecord where
  qname : CppString
  tid : Int
  qual : Nat
  flag : Nat
  deriving DecidableEq

/-- What the callbacks and the contact-map builder see of an alignment. -/
structure SamElement where
  ref_name : CppString
  query_name : CppString
  mapq : Nat
  flag : Nat
  deriving DecidableEq

/-- Modelled from the spec: `SamElement::is_primary` is declared in `Bam.hpp`,
which is missing; a record is primary when it is not flagged "not primary". -/
def SamElement.is_primary (a : SamElement) : Bool := Bam.is_primary a.flag

namespace Bam

/-- The arguments the first overload hands to its callback for one record:
the reference name is looked up only when `tid < n_targets and tid > 0`. -/
def callback_arguments (header : BamHeader) (alignment : BamRecord) :
    CppString × CppString × Nat × Nat :=
  let query_name := alignment.qname
  let ref_name : CppString :=
    if alignment.tid < header.n_targets ∧ alignment.tid > 0 then
      header.target_name.getD alignment.tid.toNat []
    else []
  (ref_name, query_name, alignment.qual, alignment.flag)

/-- The element the second overload hands to its callback for one record (the
CIGAR, which no caller here asks for, is left out): the reference name is
looked up when `tid < n_targets and tid > -1`. -/
def callback_element (header : BamHeader) (alignment : BamRecord) : SamElement :=
  let ref_name : CppString :=
    if alignment.tid < header.n_targets ∧ alignment.tid > -1 then
      header.target_name.getD alignment.tid.toNat []
    else []
  { query_name := alignment.qname, ref_name := ref_name,
    mapq := alignment.qual, flag := alignment.flag }

/-- The first overload of `for_alignment_in_bam`: the sequence of callback
arguments, one per record read. -/
def for_alignment_in_bam (header : BamHeader) (records : List BamRecord) :
    List (CppString × CppString × Nat × Nat) :=
  records.map (callback_arguments header)

/-- The second overload of `for_alignment_in_bam`: the sequence of elements, one
per record read. -/
def for_alignment_in_bam_elements (header : BamHeader) (records : List BamRecord) :
    List SamElement :=
  records.map (callback_element header)

end Bam

/-! ## Association lists

The hash maps of the registry and of the graph are kept as association lists;
only look-ups are observed, never the order of the entries. -/

/-- The value stored under `k`, if any. -/
def alookup {κ ν : Type} [DecidableEq κ] (k : κ) : List (κ × ν) → Option ν
  | [] => none
  | (k', v) :: t => if k' = k then some v else alookup k t

/-- Apply `f` to the value stored under `k`. -/
def amodify {κ ν : Type} [DecidableEq κ] (k : κ) (f : ν → ν) (l : List (κ × ν)) :
    List (κ × ν) :=
  l.map (fun e => if e.1 = k then (e.1, f e.2) else e)

/-- Drop the entry stored under `k`. -/
def aerase {κ ν : Type} [DecidableEq κ] (k : κ) (l : List (κ × ν)) : List (κ × ν) :=
  l.filter (fun e => decide (e.1 ≠ k))

/-! ## IdentifierRegistry (`IncrementalIdMap<string>`) -/

/-- Modelled from the spec: `IncrementalIdMap.hpp` is missing.  The registry in
its auto-incrementing mode: the key that was given id `i` stands at position
`i`, so ids are issued in first-seen order starting at 0 and both look-up
directions are available. -/
structure IncrementalIdMap where
  keys : List CppString
  deriving DecidableEq

namespace IncrementalIdMap

/-- The position of the first `key` in `keys`, their number if there is none. -/
def index_of (key : CppString) : List CppString → Nat
  | [] => 0
  | k :: rest => if k = key then 0 else index_of key rest + 1

/-- Modelled from the spec: the id of `key` once it is registered. -/
def id_of (m : IncrementalIdMap) (key : CppString) : Int := (index_of key m.keys : Nat)

/-- Modelled from the spec: `get_id(key)` fails with `NotFoundError` if `key`
was never inserted. -/
def get_id (m : IncrementalIdMap) (key : CppString) : Except Error Int :=
  if key ∈ m.keys then .ok (m.id_of key) else .error .NotFoundError

/-- Modelled from the spec: `try_insert(key)` returns the existing id for `key`
if present; else assigns `next_id++` and stores the mapping.  It always
succeeds. -/
def try_insert (m : IncrementalIdMap) (key : CppString) : Int × IncrementalIdMap :=
  if key ∈ m.keys then (m.id_of key, m)
  else ((m.keys.length : Nat), { keys := m.keys ++ [key] })

end IncrementalIdMap

/-! ## ContactGraph -/

/-- Modelled from the spec: `ContactGraph.hpp` is missing.  A node carries a
partition label in `{-1, 0, 1}` and a coverage counter. -/
structure Node where
  partition : Int
  coverage : Int
  deriving DecidableEq

/-- Modelled from the spec: `ContactGraph.hpp` and `MultiContactGraph.hpp` are
missing.  The graph: its nodes by id, and the weight of every edge under the
unordered pair of its endpoints.  The builder's `MultiContactGraph` is used
through the same four operations and is modelled by the same structure. -/
structure ContactGraph where
  nodes : List (Int × Node)
  edge_weights : List ((Int × Int) × Int)
  deriving DecidableEq

/-- Modelled from the spec: the key of the undirected edge between `a` and `b`,
the unordered pair written smaller id first. -/
def edge (a b : Int) : Int × Int := (min a b, max a b)

namespace ContactGraph

/-- The graph without nodes and edges. -/
def empty : ContactGraph := { nodes := [], edge_weights := [] }

/-- Modelled from the spec: whether `id` is a node. -/
def has_node (g : ContactGraph) (id : Int) : Bool := (alookup id g.nodes).isSome

/-- Modelled from the spec: whether the edge between `a` and `b` is present. -/
def has_edge (g : ContactGraph) (a b : Int) : Bool :=
  (alookup (edge a b) g.edge_weights).isSome

/-- Modelled from the spec: the weight of the edge between `a` and `b`, if the
edge is present. -/
def get_edge_weight (g : ContactGraph) (a b : Int) : Option Int :=
  alookup (edge a b) g.edge_weights

/-- Modelled from the spec: `insert_node(id, partition)` fails if `id` already
exists (the failing variant of the implementer's choice) and else creates a
node with coverage 0. -/
def insert_node (g : ContactGraph) (id : Int) (partition : Int) : Except Error ContactGraph :=
  if g.has_node id then .error .InvalidArgumentError
  else .ok { g with nodes := (id, { partition := partition, coverage := 0 }) :: g.nodes }

/-- Modelled from the spec: `try_insert_node(id, partition)` inserts if absent,
otherwise leaves the existing node untouched. -/
def try_insert_node (g : ContactGraph) (id : Int) (partition : Int) : ContactGraph :=
  if g.has_node id then g
  else { g with nodes := (id, { partition := partition, coverage := 0 }) :: g.nodes }

/-- Modelled from the spec: `try_insert_edge(a, b)` inserts an edge of weight 0
if there is none between `a` and `b`; a self-loop request `a == b` is an
`InvalidArgumentError`, an endpoint that is not a node a `NotFoundError`. -/
def try_insert_edge (g : ContactGraph) (a b : Int) : Except Error ContactGraph :=
  if a = b then .error .InvalidArgumentError
  else if g.has_node a = false ∨ g.has_node b = false then .error .NotFoundError
  else if g.has_edge a b then .ok g
  else .ok { g with edge_weights := (edge a b, 0) :: g.edge_weights }

/-- Modelled from the spec: `remove_edge(a, b)` deletes the edge if present and
is a no-op otherwise. -/
def remove_edge (g : ContactGraph) (a b : Int) : ContactGraph :=
  { g with edge_weights := aerase (edge a b) g.edge_weights }

/-- Modelled from the spec: `increment_edge_weight(a, b, delta)` adds `delta` to
the edge weight and fails with `NotFoundError` if the edge does not exist. -/
def increment_edge_weight (g : ContactGraph) (a b : Int) (delta : Int) :
    Except Error ContactGraph :=
  if g.has_edge a b then
    .ok { g with edge_weights := amodify (edge a b) (fun w => w + delta) g.edge_weights }
  else .error .NotFoundError

/-- Modelled from the spec: `increment_coverage(id, delta)` adds `delta` to the
node coverage and fails with `NotFoundError` if the node is absent. -/
def increment_coverage (g : ContactGraph) (id : Int) (delta : Int) : Except Error ContactGraph :=
  if g.has_node id then
    .ok { g with nodes := amodify id (fun n => { n with coverage := n.coverage + delta }) g.nodes }
  else .error .NotFoundError

/-- Modelled from the spec: the three-argument `try_insert_edge(a, b, weight)`
that `test_optimization` calls; the spec names only the two-argument form, so
this one is that form followed by `increment_edge_weight(a, b, weight)` when the
edge was created. -/
def try_insert_edge_weight (g : ContactGraph) (a b : Int) (weight : Int) :
    Except Error ContactGraph :=
  match g.try_insert_edge a b with
  | .error e => .error e
  | .ok g' => if g.has_edge a b then .ok g' else g'.increment_edge_weight a b weight

/-- Modelled from the spec: `set_partitions(list of (id, label))`, a bulk write
of the labeling; writing an unknown id fails with `NotFoundError`. -/
def set_partitions (g : ContactGraph) : List (Int × Int) → Except Error ContactGraph
  | [] => .ok g
  | (id, label) :: rest =>
    if g.has_node id then
      set_partitions
        { g with nodes := amodify id (fun n => { n with partition := label }) g.nodes } rest
    else .error .NotFoundError

/-- Modelled from the spec: the label of node `id`; the data model has every
edge end at a node, and an id that is no node counts as unresolved. -/
def get_partition (g : ContactGraph) (id : Int) : Int :=
  match alookup id g.nodes with
  | some n => n.partition
  | none => -1

/-- Modelled from the spec: `agreement(x, y)` is `+1` if `x == y` and both are
in `{0, 1}`, `-1` if both are in `{0, 1}` and `x ≠ y`, and `0` if either label
is `-1`. -/
def agreement (x y : Int) : Int :=
  if (x = 0 ∨ x = 1) ∧ (y = 0 ∨ y = 1) then (if x = y then 1 else -1) else 0

/-- Modelled from the spec: `for_each_edge`, every undirected edge once with its
weight. -/
def for_each_edge (g : ContactGraph) : List ((Int × Int) × Int) := g.edge_weights

/-- Modelled from the spec: `for_each_node`, the ids of the nodes. -/
def for_each_node (g : ContactGraph) : List Int := g.nodes.map Prod.fst

/-- Modelled from the spec: `for_each_node_neighbor(id, f)`, the other endpoint
of every edge at `id`; the graph is symmetric because both directions are read
off the one edge table. -/
def for_each_node_neighbor (g : ContactGraph) (id : Int) : List Int :=
  g.edge_weights.filterMap (fun e =>
    if e.1.1 = id then some e.1.2 else if e.1.2 = id then some e.1.1 else none)

/-- Modelled from the spec: `compute_total_consistency_score()`, the sum of
`weight(a, b) * agreement(partition(a), partition(b))` over every edge exactly
once. -/
def compute_total_consistency_score (g : ContactGraph) : Int :=
  (g.for_each_edge.map (fun e =>
    e.2 * agreement (g.get_partition e.1.1) (g.get_partition e.1.2))).sum

end ContactGraph

/-! ## `update_contact_map` (`Bam.cpp` 113-134) -/

/-- A call that `update_contact_map` makes on the contact graph. -/
inductive GraphCall where
  | try_insert_node (id : Int) (partition : Int)
  | increment_coverage (id : Int) (delta : Int)
  | try_insert_edge (a b : Int)
  | increment_edge_weight (a b : Int) (delta : Int)
  deriving DecidableEq

/-- The effect of one call on the graph. -/
def GraphCall.apply (g : ContactGraph) : GraphCall → Except Error ContactGraph
  | .try_insert_node id partition => .ok (g.try_insert_node id partition)
  | .increment_coverage id delta => g.increment_coverage id delta
  | .try_insert_edge a b => g.try_insert_edge a b
  | .increment_edge_weight a b delta => g.increment_edge_weight a b delta

/-- The calls in program order; the first one that throws ends the sequence. -/
def apply_calls : ContactGraph → List GraphCall → Except Error ContactGraph
  | g, [] => .ok g
  | g, c :: rest =>
    match c.apply g with
    | .error e => .error e
    | .ok g' => apply_calls g' rest

/-- The inner loop `for (size_t j=i+1; j<alignments.size(); j++)` over the
records after position `i`: for each `b`, `id_map.try_insert(b.ref_name)` and
then the three graph calls. -/
def inner_loop (ref_id_a : Int) : List SamElement → IncrementalIdMap →
    List GraphCall × IncrementalIdMap
  | [], id_map => ([], id_map)
  | b :: rest, id_map =>
    let r := id_map.try_insert b.ref_name
    let ref_id_b := r.1
    let tail := inner_loop ref_id_a rest r.2
    (GraphCall.try_insert_node ref_id_b 0 :: GraphCall.try_insert_edge ref_id_a ref_id_b ::
      GraphCall.increment_edge_weight ref_id_a ref_id_b 1 :: tail.1, tail.2)

/-- The outer loop `for (size_t i=0; i<alignments.size(); i++)`: for each `a`,
`id_map.try_insert(a.ref_name)`, the node and coverage calls, the inner loop over
the records after `a`, then the next `i`. -/
def outer_loop : List SamElement → IncrementalIdMap → List GraphCall × IncrementalIdMap
  | [], id_map => ([], id_map)
  | a :: rest, id_map =>
    let r := id_map.try_insert a.ref_name
    let ref_id_a := r.1
    let inner := inner_loop ref_id_a rest r.2
    let tail := outer_loop rest inner.2
    (GraphCall.try_insert_node ref_id_a 0 :: GraphCall.increment_coverage ref_id_a 1 ::
      (inner.1 ++ tail.1), tail.2)

/-- The graph calls that `update_contact_map` issues on a group, in order, when
none of them throws. -/
def update_contact_map_calls (alignments : List SamElement) (id_map : IncrementalIdMap) :
    List GraphCall :=
  (outer_loop alignments id_map).1

/-- `update_contact_map(alignments, contact_graph, id_map)`: the graph and the
registry after the call, or the error of the first graph call that throws. -/
def update_contact_map (alignments : List SamElement) (contact_graph : ContactGraph)
    (id_map : IncrementalIdMap) : Except Error (ContactGraph × IncrementalIdMap) :=
  let r := outer_loop alignments id_map
  match apply_calls contact_graph r.1 with
  | .error e => .error e
  | .ok g => .ok (g, r.2)

/-! ## `parse_unpaired_bam_file` (`Bam.cpp` 137-186) -/

/-- The locals `l`, `prev_query_name` and `alignments` of
`parse_unpaired_bam_file` with the graph and the registry it fills.  `calls` is
a history variable: the argument of every completed `update_contact_map` call,
in order; nothing reads it. -/
structure ParseState where
  l : Nat
  prev_query_name : CppString
  alignments : List SamElement
  contact_graph : ContactGraph
  id_map : IncrementalIdMap
  calls : List (List SamElement)
  deriving DecidableEq

/-- The loop `for (size_t i=0; i<required_prefix.size(); i++)` with `n`
iterations left at index `i`: the value of `valid_prefix` at its end. -/
def valid_prefix_loop (ref_name required_prefix : CppString) : Nat → Nat → Except Error Bool
  | 0, _ => .ok true
  | n + 1, i =>
    match cpp_index ref_name i, cpp_index required_prefix i with
    | some c, some d =>
      if c ≠ d then .ok false else valid_prefix_loop ref_name required_prefix n (i + 1)
    | _, _ => .error .UndefinedBehaviour

/-- The value of `valid_prefix` after lines 166-174. -/
def valid_prefix (ref_name required_prefix : CppString) : Except Error Bool :=
  if required_prefix ≠ [] then
    valid_prefix_loop ref_name required_prefix required_prefix.length 0
  else .ok true

/-- Lines 151-158 of the callback: the first record sets `prev_query_name`, and
a change of query name hands the accumulated records to `update_contact_map`
and clears them. -/
def group_boundary (s : ParseState) (a : SamElement) : Except Error ParseState :=
  let s1 : ParseState := if s.l = 0 then { s with prev_query_name := a.query_name } else s
  if s1.prev_query_name ≠ a.query_name then
    match update_contact_map s1.alignments s1.contact_graph s1.id_map with
    | .error e => .error e
    | .ok r =>
      .ok { s1 with contact_graph := r.1, id_map := r.2, alignments := [],
                    calls := s1.calls ++ [s1.alignments] }
  else .ok s1

/-- The callback that `parse_unpaired_bam_file` hands to the reader (lines
150-185), for one record `a`. -/
def callback ( required_prefix : CppString) (min_mapq : Int) (s : ParseState)
    (a : SamElement) : Except Error ParseState :=
  match group_boundary s a with
  | .error e => .error e
  | .ok s2 =>
    if a.ref_name = [] then .ok s2
    else
      match valid_prefix a.ref_name required_prefix with
      | .error e => .error e
      | .ok ok_prefix =>
        let s3 : ParseState :=
          if ok_prefix = true ∧ (a.mapq : Int) ≥ min_mapq ∧ a.is_primary = true then
            { s2 with alignments := s2.alignments ++ [a] }
          else s2
        .ok { s3 with l := s3.l + 1, prev_query_name := a.query_name }

/-- The reader calling the callback on every record in stream order.  The
result is the state after the last callback that returned, and the exception
that ended the loop, if one did. -/
def for_each_alignment (f : ParseState → SamElement → Except Error ParseState) :
    ParseState → List SamElement → ParseState × Option Error
  | s, [] => (s, none)
  | s, a :: rest =>
    match f s a with
    | .error e => (s, some e)
    | .ok s' => for_each_alignment f s' rest

/-- The state in which `parse_unpaired_bam_file` starts reading. -/
def initial_state (contact_graph : ContactGraph) (id_map : IncrementalIdMap) : ParseState :=
  { l := 0, prev_query_name := [], alignments := [], contact_graph := contact_graph,
    id_map := id_map, calls := [] }

/-- `parse_unpaired_bam_file` on the stream of elements the reader delivers:
the state when the function is left (its `contact_graph` and `id_map` are what
the caller sees) and the exception it is left with, if any.  There is no code
after the reader's loop. -/
def parse_unpaired_bam_file (stream : List SamElement) (contact_graph : ContactGraph)
    (id_map : IncrementalIdMap) ( required_prefix : CppString) (min_mapq : Int) :
    ParseState × Option Error :=
  for_each_alignment (callback required_prefix min_mapq) (initial_state contact_graph id_map)
    stream

/-- Whether the callback appends `a` to `alignments` (lines 160-181): the
reference name is not empty, `valid_prefix` ends up true, the mapping quality
is at least `min_mapq` and the record is primary. -/
def appended ( required_prefix : CppString) (min_mapq : Int) (a : SamElement) : Bool :=
  decide (a.ref_name ≠ []) &&
    (match valid_prefix a.ref_name required_prefix with
     | .ok b => b
     | .error _ => false) &&
    decide ((a.mapq : Int) ≥ min_mapq) && a.is_primary

/-! ## The graphs of `test_contact_graph.cpp` -/

/-- Modelled from the spec: the invariants of the data model on edges, the two
endpoints of an edge differ and both exist as nodes. -/
def ContactGraph.Invariant (g : ContactGraph) : Prop :=
  ∀ e ∈ g.edge_weights, e.1.1 ≠ e.1.2 ∧ g.has_node e.1.1 = true ∧ g.has_node e.1.2 = true

/-- A loop of `insert_node(id, partition)` calls. -/
def insert_nodes : ContactGraph → List (Int × Int) → Except Error ContactGraph
  | g, [] => .ok g
  | g, (id, partition) :: rest =>
    match g.insert_node id partition with
    | .error e => .error e
    | .ok g' => insert_nodes g' rest

/-- A loop of `try_insert_edge(a, b)` calls. -/
def try_insert_edges : ContactGraph → List (Int × Int) → Except Error ContactGraph
  | g, [] => .ok g
  | g, (a, b) :: rest =>
    match g.try_insert_edge a b with
    | .error e => .error e
    | .ok g' => try_insert_edges g' rest

/-- A sequence of `try_insert_edge(a, b, weight)` calls. -/
def try_insert_weighted_edges : ContactGraph → List (Int × Int × Int) →
    Except Error ContactGraph
  | g, [] => .ok g
  | g, (a, b, weight) :: rest =>
    match g.try_insert_edge_weight a b weight with
    | .error e => .error e
    | .ok g' => try_insert_weighted_edges g' rest

/-- A loop of `remove_edge(a, b)` calls. -/
def remove_edges : ContactGraph → List (Int × Int) → ContactGraph
  | g, [] => g
  | g, (a, b) :: rest => remove_edges (g.remove_edge a b) rest

/-- The pairs `(i, (i+3) % n_nodes)` for `i = lo, .., hi-1`, with
`n_nodes = 10`. -/
def test_mutability_pairs (lo hi : Nat) : List (Int × Int) :=
  (List.range (hi - lo)).map (fun k => (((lo + k : Nat) : Int), (((lo + k + 3) % 10 : Nat) : Int)))

/-- `test_mutability`, lines 17-28: ten nodes with the default label `-1`, and
the edges `(i, (i+3) % 10)` for `i = 0..9`. -/
def test_mutability_graph : Except Error ContactGraph :=
  match insert_nodes ContactGraph.empty
      ((List.range 10).map (fun i => ((i : Int), (-1 : Int)))) with
  | .error e => .error e
  | .ok g => try_insert_edges g (test_mutability_pairs 0 10)

/-- `test_mutability`, lines 47-49: the graph once the edges for `i = 5..9`
are removed. -/
def test_mutability_edited : Except Error ContactGraph :=
  match test_mutability_graph with
  | .error e => .error e
  | .ok g => .ok (remove_edges g (test_mutability_pairs 5 10))

/-- `test_mutability`, lines 62-64: the graph once the same edges are inserted
again. -/
def test_mutability_unedited : Except Error ContactGraph :=
  match test_mutability_edited with
  | .error e => .error e
  | .ok g => try_insert_edges g (test_mutability_pairs 5 10)

/-- `test_optimization`, lines 155-166: the labels the nodes are created with. -/
def test_optimization_partitions : List (Int × Int) :=
  [(0, 0), (1, 0), (2, -1), (3, 0), (4, 1), (5, 0), (6, 0), (7, -1), (8, -1), (9, 0)]

/-- `test_optimization`, lines 188-207: the edges with their weights. -/
def test_optimization_edges : List (Int × Int × Int) :=
  [(1, 4, 6), (1, 7, 6), (4, 7, 6),
   (2, 5, 6), (2, 8, 6), (5, 8, 6),
   (1, 5, 1), (4, 8, 1), (2, 4, 1), (5, 7, 1),
   (1, 2, 1), (4, 5, 1), (7, 8, 1)]

/-- `test_optimization`, lines 141-152: `intended_partitions`. -/
def intended_partitions : List (Int × Int) :=
  [(0, 0), (1, 1), (2, -1), (3, 0), (4, 1), (5, -1), (6, 0), (7, 1), (8, -1), (9, 0)]

/-- `test_optimization`, lines 168-207: the 10-node bubble graph. -/
def test_optimization_graph : Except Error ContactGraph :=
  match insert_nodes ContactGraph.empty test_optimization_partitions with
  | .error e => .error e
  | .ok g => try_insert_weighted_edges g test_optimization_edges

/-- The assignment that gives all ten nodes the same label. -/
def all_same_label (label : Int) : List (Int × Int) :=
  (List.range 10).map (fun i => ((i : Int), label))

/-- `g.set_partitions(labels)` on the bubble graph followed by
`g.compute_total_consistency_score()` (lines 238-241). -/
def score_under (labels : List (Int × Int)) : Except Error Int :=
  match test_optimization_graph with
  | .error e => .error e
  | .ok g =>
    match g.set_partitions labels with
    | .error e => .error e
    | .ok g' => .ok g'.compute_total_consistency_score

/-! ## Vocabulary of the statements -/

/-- The reference names of a group, in order. -/
def ref_names (alignments : List SamElement) : List CppString :=
  alignments.map SamElement.ref_name

/-- All records of a group carry one query name. -/
def one_query_name (group : List SamElement) : Prop :=
  ∀ x ∈ group, ∀ y ∈ group, x.query_name = y.query_name

/-- Sample records: query `q1` on `A`, on `B`, unmapped, with mapping quality
3, flagged not primary; query `q2` on `C`. -/
def rec_q1_A : SamElement := { ref_name := ['A'], query_name := ['q', '1'], mapq := 60, flag := 0 }

/-- See `rec_q1_A`. -/
def rec_q1_B : SamElement := { ref_name := ['B'], query_name := ['q', '1'], mapq := 60, flag := 0 }

/-- See `rec_q1_A`. -/
def rec_q1_unmapped : SamElement :=
  { ref_name := [], query_name := ['q', '1'], mapq := 0, flag := 4 }

/-- See `rec_q1_A`. -/
def rec_q1_low : SamElement := { ref_name := ['D'], query_name := ['q', '1'], mapq := 3, flag := 0 }

/-- See `rec_q1_A`. -/
def rec_q2_secondary : SamElement :=
  { ref_name := ['D'], query_name := ['q', '2'], mapq := 60, flag := 256 }

/-- See `rec_q1_A`. -/
def rec_q2_C : SamElement := { ref_name := ['C'], query_name := ['q', '2'], mapq := 60, flag := 0 }

/-- See `rec_q1_A`. -/
def rec_q3_A : SamElement := { ref_name := ['A'], query_name := ['q', '3'], mapq := 60, flag := 0 }

/-- Both mates of one read aligned to the same contig `A`: the first mate. -/
def rec_mate1_A : SamElement := { ref_name := ['A'], query_name := ['q', '1'], mapq := 60, flag := 65 }

/-- Both mates of one read aligned to the same contig `A`: the second mate. -/
def rec_mate2_A : SamElement :=
  { ref_name := ['A'], query_name := ['q', '1'], mapq := 60, flag := 129 }

/-- A header with two reference sequences. -/
def sample_header : BamHeader := { target_name := [['c', 't', 'g', '1'], ['c', 't', 'g', '2']] }

/-- A mapped record on the first reference sequence, `tid = 0`. -/
def record_on_first_reference : BamRecord := { qname := ['q', '1'], tid := 0, qual := 60, flag := 0 }

/-! ## Vocabulary of the proofs -/

/-- What the callback keeps true of the state after the records `seen`. -/
def callback_invariant ( required_prefix : CppString) (min_mapq : Int) (seen : List SamElement)
    (s : ParseState) : Prop :=
  (s.l = 0 → s.alignments = []) ∧
  (∀ x ∈ s.alignments, x.query_name = s.prev_query_name) ∧
  (∀ g ∈ s.calls, one_query_name g) ∧
  s.calls.flatten ++ s.alignments = seen.filter (appended required_prefix min_mapq)

/-- `id_map.try_insert` of every name in turn: the registry afterwards. -/
def IncrementalIdMap.insert_all (m : IncrementalIdMap) : List CppString → IncrementalIdMap
  | [] => m
  | k :: ks => insert_all (m.try_insert k).2 ks

/-- The three graph calls of the inner loop for the ids `x` and `y`. -/
def pair_calls (x y : Int) : List GraphCall :=
  [GraphCall.try_insert_node y 0, GraphCall.try_insert_edge x y,
    GraphCall.increment_edge_weight x y 1]

/-- The graph calls of `update_contact_map` on a group whose records have the
node ids `ids`. -/
def group_calls : List Int → List GraphCall
  | [] => []
  | x :: rest =>
    GraphCall.try_insert_node x 0 :: GraphCall.increment_coverage x 1 ::
      ((rest.flatMap (pair_calls x)) ++ group_calls rest)

/-- What the graph does with `try_insert_edge(a, a)` and
`increment_edge_weight(a, a, delta)`: it throws `InvalidArgumentError`, it
returns without any effect, or it keeps the edge `(a, a)` like any other
edge. -/
inductive SelfLoopReaction where
  | rejected
  | ignored
  | stored
  deriving DecidableEq

/-- Modelled from the spec: `try_insert_edge(a, b)` under a given reaction to
`a == b`; for `a ≠ b` it is `ContactGraph.try_insert_edge`, and a stored
self-loop is inserted as section 4.2 says for any edge (weight 0 if absent,
`NotFoundError` if the node is missing). -/
def ContactGraph.try_insert_edge_under (r : SelfLoopReaction) (g : ContactGraph) (a b : Int) :
    Except Error ContactGraph :=
  if a = b then
    match r with
    | .rejected => .error .InvalidArgumentError
    | .ignored => .ok g
    | .stored =>
      if g.has_node a = false then .error .NotFoundError
      else if g.has_edge a a then .ok g
      else .ok { g with edge_weights := (edge a a, 0) :: g.edge_weights }
  else g.try_insert_edge a b

/-- Modelled from the spec: `increment_edge_weight(a, b, delta)` under a given
reaction to `a == b`; a graph that ignores self-loop requests returns without
effect, otherwise it is `ContactGraph.increment_edge_weight`. -/
def ContactGraph.increment_edge_weight_under (r : SelfLoopReaction) (g : ContactGraph)
    (a b : Int) (delta : Int) : Except Error ContactGraph :=
  if a = b ∧ r = .ignored then .ok g else g.increment_edge_weight a b delta

/-- The effect of one call on the graph, under a given reaction to self-loop
requests. -/
def GraphCall.apply_under (r : SelfLoopReaction) (g : ContactGraph) :
    GraphCall → Except Error ContactGraph
  | .try_insert_node id partition => .ok (g.try_insert_node id partition)
  | .increment_coverage id delta => g.increment_coverage id delta
  | .try_insert_edge a b => g.try_insert_edge_under r a b
  | .increment_edge_weight a b delta => g.increment_edge_weight_under r a b delta

/-- The calls in program order under a given reaction to self-loop requests;
the first one that throws ends the sequence. -/
def apply_calls_under (r : SelfLoopReaction) : ContactGraph → List GraphCall →
    Except Error ContactGraph
  | g, [] => .ok g
  | g, c :: rest =>
    match c.apply_under r g with
    | .error e => .error e
    | .ok g' => apply_calls_under r g' rest

/-- `update_contact_map(alignments, contact_graph, id_map)` on a graph with the
given reaction to self-loop requests: the same two loops of `Bam.cpp` 119-133,
`outer_loop`, acting on that graph. -/
def update_contact_map_under (r : SelfLoopReaction) (alignments : List SamElement)
    (contact_graph : ContactGraph) (id_map : IncrementalIdMap) :
    Except Error (ContactGraph × IncrementalIdMap) :=
  let res := outer_loop alignments id_map
  match apply_calls_under r contact_graph res.1 with
  | .error e => .error e
  | .ok g => .ok (g, res.2)

/-- A look-up that succeeds found an entry of the list. -/
theorem alookup_mem {κ ν : Type} [DecidableEq κ] (k : κ) (v : ν) (l : List (κ × ν))
    (h : alookup k l = some v) : (k, v) ∈ l := by
  induction l with
  | nil => simp [alookup] at h
  | cons e t ih =>
    obtain ⟨k', v'⟩ := e
    simp only [alookup] at h
    by_cases hk : k' = k
    · simp [hk] at h; subst hk; subst h; simp
    · simp [hk] at h; exact List.mem_cons_of_mem _ (ih h)

/-- After `aerase k` nothing is stored under `k`. -/
theorem alookup_aerase_self {κ ν : Type} [DecidableEq κ] (k : κ) (l : List (κ × ν)) :
    alookup k (aerase k l) = none := by
  induction l with
  | nil => rfl
  | cons e t ih =>
    obtain ⟨k', v'⟩ := e
    by_cases hk : k' = k
    · simpa [aerase, hk] using ih
    · have : aerase k ((k', v') :: t) = (k', v') :: aerase k t := by simp [aerase, hk]
      rw [this]; simp [alookup, hk, ih]

/-- `aerase k` leaves the other keys alone. -/
theorem alookup_aerase_ne {κ ν : Type} [DecidableEq κ] (k k' : κ) (l : List (κ × ν))
    (h : k' ≠ k) : alookup k' (aerase k l) = alookup k' l := by
  induction l with
  | nil => rfl
  | cons e t ih =>
    obtain ⟨k₁, v₁⟩ := e
    by_cases hk : k₁ = k
    · have : aerase k ((k₁, v₁) :: t) = aerase k t := by simp [aerase, hk]
      rw [this, ih]
      have : k₁ ≠ k' := by rw [hk]; exact fun e => h e.symm
      simp [alookup, this]
    · have : aerase k ((k₁, v₁) :: t) = (k₁, v₁) :: aerase k t := by simp [aerase, hk]
      rw [this]; simp [alookup, ih]

/-- The key of an edge does not depend on the order of its endpoints. -/
theorem edge_comm (a b : Int) : edge a b = edge b a := by
  simp [edge, min_comm, max_comm]

/-- The key of an edge between distinct nodes has distinct components. -/
theorem edge_fst_ne_snd {a b : Int} (h : a ≠ b) : (edge a b).1 ≠ (edge a b).2 := by
  simp only [edge]
  rcases le_total a b with hab | hab
  · rw [min_eq_left hab, max_eq_right hab]; exact h
  · rw [min_eq_right hab, max_eq_left hab]; exact fun e => h e.symm

/-- The components of the key of an edge are its endpoints. -/
theorem edge_endpoints (a b : Int) :
    ((edge a b).1 = a ∧ (edge a b).2 = b) ∨ ((edge a b).1 = b ∧ (edge a b).2 = a) := by
  simp only [edge]
  rcases le_total a b with hab | hab
  · left; exact ⟨min_eq_left hab, max_eq_right hab⟩
  · right; exact ⟨min_eq_right hab, max_eq_left hab⟩

/-- The endpoints of the first edge of the table are neighbours. -/
theorem neighbor_of_head (g : ContactGraph) (a b : Int) (w : Int) (h : a ≠ b)
    (rest : List ((Int × Int) × Int)) (hg : g.edge_weights = (edge a b, w) :: rest) :
    b ∈ g.for_each_node_neighbor a := by
  unfold ContactGraph.for_each_node_neighbor
  rw [hg, List.mem_filterMap]
  refine ⟨(edge a b, w), List.mem_cons_self _ _, ?_⟩
  rcases edge_endpoints a b with ⟨h1, h2⟩ | ⟨h1, h2⟩
  · simp [h1, h2]
  · have : ¬ b = a := fun e => h e.symm
    simp [h1, h2, this]

/-- C8: in a graph that meets the invariants of the data model, removing a
present edge `(a, b)` and inserting it again succeeds and leaves the nodes and
the set of edges as they were, the edge now having weight 0 and `a`, `b` being
neighbours of each other; and in `test_mutability` (nodes `0..9`, edges
`(i, (i+3) mod 10)`), removing the edges for `i = 5..9`, which leaves five
edges, and inserting them again gives the graph the test started from. -/
theorem remove_edge_then_try_insert_edge_restores :
    (∀ (g : ContactGraph) (a b : Int), g.Invariant → g.has_edge a b = true →
      ∃ g', (g.remove_edge a b).try_insert_edge a b = .ok g' ∧
        g'.nodes = g.nodes ∧
        (∀ x y, g'.has_edge x y = g.has_edge x y) ∧
        g'.get_edge_weight a b = some 0 ∧
        b ∈ g'.for_each_node_neighbor a ∧ a ∈ g'.for_each_node_neighbor b) ∧
    (∃ g g_edited, test_mutability_graph = .ok g ∧ test_mutability_edited = .ok g_edited ∧
      test_mutability_unedited = .ok g ∧
      g.for_each_node.reverse = (List.range 10).map (fun i => (i : Int)) ∧
      g.for_each_edge.reverse.map Prod.fst =
        (List.range 10).map (fun i => edge (i : Nat) (((i + 3) % 10 : Nat))) ∧
      g_edited.for_each_edge.reverse.map Prod.fst =
        (List.range 5).map (fun i => edge (i : Nat) (((i + 3) % 10 : Nat)))) := by
  refine ⟨?_, ?_⟩
  · intro g a b hinv h
    have hk : ∃ w, alookup (edge a b) g.edge_weights = some w := by
      simpa [ContactGraph.has_edge, Option.isSome_iff_exists] using h
    obtain ⟨w, hw⟩ := hk
    obtain ⟨hne, hn1, hn2⟩ := hinv _ (alookup_mem _ _ _ hw)
    simp only at hne hn1 hn2
    have hab : a ≠ b := by
      intro e; subst e; exact hne (by simp [edge])
    have hna : g.has_node a = true ∧ g.has_node b = true := by
      rcases edge_endpoints a b with ⟨h1, h2⟩ | ⟨h1, h2⟩
      · rw [h1] at hn1; rw [h2] at hn2; exact ⟨hn1, hn2⟩
      · rw [h1] at hn1; rw [h2] at hn2; exact ⟨hn2, hn1⟩
    have hrem : (g.remove_edge a b).has_edge a b = false := by
      simp [ContactGraph.has_edge, ContactGraph.remove_edge, alookup_aerase_self]
    have hn' : ∀ x, (g.remove_edge a b).has_node x = g.has_node x := fun x => rfl
    refine ⟨{ g with edge_weights := (edge a b, 0) :: aerase (edge a b) g.edge_weights }, ?_, rfl,
      ?_, ?_, ?_, ?_⟩
    · unfold ContactGraph.try_insert_edge
      rw [if_neg hab, hn', hn', hna.1, hna.2, hrem]
      simp [ContactGraph.remove_edge]
    · intro x y
      simp only [ContactGraph.has_edge, alookup]
      by_cases hxy : edge a b = edge x y
      · rw [if_pos hxy, ← hxy, hw]; rfl
      · rw [if_neg hxy, alookup_aerase_ne _ _ _ (fun e => hxy e.symm)]
    · simp [ContactGraph.get_edge_weight, alookup]
    · exact neighbor_of_head _ a b 0 hab _ rfl
    · exact neighbor_of_head _ b a 0 (fun e => hab e.symm) _ (by rw [edge_comm b a])
  · exact ⟨_, _, rfl, rfl, rfl, rfl, rfl, rfl⟩

/-! ## Flags, the prefix filter, the grouping invariant and the registry -/

/-- Shifting a 16-bit flag right by `k < 16` and masking with 1 reads bit `k`. -/
theorem shift_and_one_eq_testBit (f k : Nat) (hk : k < 16) :
    (((Bam.uint16_t f >>> k) &&& Bam.uint16_t 1) != 0) = f.testBit k := by
  have h1 : Bam.uint16_t 1 = 1 := by decide
  have h2 : Bam.uint16_t f = f % 2 ^ 16 := rfl
  rw [h1, h2, Nat.and_comm]
  show (f % 2 ^ 16).testBit k = f.testBit k
  rw [Nat.testBit_mod_two_pow]
  simp [hk]

/-- Masking with `2 ^ k` is non-zero exactly when bit `k` is set. -/
theorem and_mask_ne_zero_iff (f k : Nat) : f &&& 2 ^ k ≠ 0 ↔ f.testBit k = true := by
  rw [Nat.and_two_pow]
  cases f.testBit k <;> simp

/-- C6: for every flag value `f`, `is_first_mate` is bit 6 of `f` and is true
iff `f & 0x40` is not zero, `is_second_mate` is bit 7 (`f & 0x80`),
`is_not_primary` is bit 8 (`f & 0x100`), `is_supplementary` is bit 11
(`f & 0x800`), and `is_primary` is the negation of `is_not_primary`; each
answer is that one bit, so it depends on no other bit of `f`. -/
theorem flag_predicates_read_one_bit (f : Nat) :
    (Bam.is_first_mate f = f.testBit 6 ∧ (Bam.is_first_mate f = true ↔ f &&& 0x40 ≠ 0)) ∧
    (Bam.is_second_mate f = f.testBit 7 ∧ (Bam.is_second_mate f = true ↔ f &&& 0x80 ≠ 0)) ∧
    (Bam.is_not_primary f = f.testBit 8 ∧ (Bam.is_not_primary f = true ↔ f &&& 0x100 ≠ 0)) ∧
    (Bam.is_supplementary f = f.testBit 11 ∧
      (Bam.is_supplementary f = true ↔ f &&& 0x800 ≠ 0)) ∧
    Bam.is_primary f = !(Bam.is_not_primary f) := by
  have e6 : Bam.is_first_mate f = f.testBit 6 := shift_and_one_eq_testBit f 6 (by decide)
  have e7 : Bam.is_second_mate f = f.testBit 7 := shift_and_one_eq_testBit f 7 (by decide)
  have e8 : Bam.is_not_primary f = f.testBit 8 := shift_and_one_eq_testBit f 8 (by decide)
  have e11 : Bam.is_supplementary f = f.testBit 11 := shift_and_one_eq_testBit f 11 (by decide)
  refine ⟨⟨e6, ?_⟩, ⟨e7, ?_⟩, ⟨e8, ?_⟩, ⟨e11, ?_⟩, rfl⟩
  · rw [e6]; exact (and_mask_ne_zero_iff f 6).symm
  · rw [e7]; exact (and_mask_ne_zero_iff f 7).symm
  · rw [e8]; exact (and_mask_ne_zero_iff f 8).symm
  · rw [e11]; exact (and_mask_ne_zero_iff f 11).symm

/-- Indexing at the length of the part before a character gives that character. -/
theorem cpp_index_append_cons (s₀ : CppString) (c : Char) (s₁ : CppString) :
    cpp_index (s₀ ++ c :: s₁) s₀.length = some c := by
  have h : s₀.length < (s₀ ++ c :: s₁).length := by simp
  simp only [cpp_index, h, dite_true, List.get_eq_getElem]
  rw [List.getElem_append_right (Nat.le_refl _)]
  simp

/-- Indexing a string at its length gives the terminator. -/
theorem cpp_index_length (s : CppString) : cpp_index s s.length = some NUL := by
  simp [cpp_index]

/-- With a prefix free of `NUL` the loop never leaves the reference name and
decides whether the rest of the prefix is a prefix of the rest of the name. -/
theorem valid_prefix_loop_eq (p₁ : CppString) (hnul : NUL ∉ p₁) :
    ∀ (r₀ r₁ p₀ : CppString), r₀.length = p₀.length →
      valid_prefix_loop (r₀ ++ r₁) (p₀ ++ p₁) p₁.length p₀.length = .ok (decide (p₁ <+: r₁)) := by
  induction p₁ with
  | nil => intro r₀ r₁ p₀ _; simp [valid_prefix_loop]
  | cons d p₁ ih =>
    intro r₀ r₁ p₀ hlen
    have hd : NUL ≠ d := fun e => hnul (by simp [e])
    have hnul' : NUL ∉ p₁ := fun h => hnul (List.mem_cons_of_mem _ h)
    rw [List.length_cons, valid_prefix_loop, cpp_index_append_cons, ← hlen]
    cases r₁ with
    | nil =>
      rw [List.append_nil, cpp_index_length]
      simp [hd]
    | cons c r₁ =>
      rw [cpp_index_append_cons]
      simp only []
      by_cases hc : c = d
      · subst hc
        have h := ih hnul' (r₀ ++ [c]) r₁ (p₀ ++ [c]) (by simp [hlen])
        simp only [List.append_assoc, List.singleton_append, List.length_append,
          List.length_singleton] at h
        rw [if_neg (not_not.mpr rfl), hlen, h]
        simp [List.cons_prefix_cons]
      · rw [if_pos hc]
        have : ¬ d = c := fun e => hc e.symm
        simp [List.cons_prefix_cons, this]

/-- With a prefix free of `NUL`, `valid_prefix` is the literal prefix test. -/
theorem valid_prefix_eq (ref_name pre : CppString) (hnul : NUL ∉ pre) :
    valid_prefix ref_name pre = .ok (decide (pre <+: ref_name)) := by
  unfold valid_prefix
  by_cases hp : pre = []
  · simp [hp]
  · rw [if_pos hp]
    simpa using valid_prefix_loop_eq pre hnul [] ref_name [] rfl

/-- A record is primary iff bit 8 of its flag is clear. -/
theorem is_primary_eq (a : SamElement) : a.is_primary = !(a.flag.testBit 8) := by
  have h1 : Bam.uint16_t 1 = 1 := by decide
  have h2 : Bam.uint16_t a.flag = a.flag % 2 ^ 16 := rfl
  unfold SamElement.is_primary Bam.is_primary Bam.is_not_primary
  rw [h1, h2, Nat.and_comm]
  show (!((a.flag % 2 ^ 16).testBit 8)) = !(a.flag.testBit 8)
  rw [Nat.testBit_mod_two_pow]
  simp

/-- C5, amended: when `required_prefix` contains no `NUL` character and the
group-boundary step of the callback returns the state `s2`, the callback returns
without error, with the graph, the registry and the calls of `s2`, and it appends
the record to `alignments` iff the reference name is non-empty, `required_prefix`
is empty or a literal prefix of the reference name, the mapping quality is at
least `min_mapq`, and bit 8 of the flag is clear; otherwise `alignments` is that
of `s2`. -/
theorem callback_appends_iff ( required_prefix : CppString) (min_mapq : Int) (s s2 : ParseState)
    (a : SamElement) (hnul : NUL ∉ required_prefix) (hb : group_boundary s a = .ok s2) :
    ∃ s', callback required_prefix min_mapq s a = .ok s' ∧
      s'.contact_graph = s2.contact_graph ∧ s'.id_map = s2.id_map ∧ s'.calls = s2.calls ∧
      ((a.ref_name ≠ [] ∧ ( required_prefix = [] ∨ required_prefix <+: a.ref_name) ∧
          (a.mapq : Int) ≥ min_mapq ∧ a.flag.testBit 8 = false) →
        s'.alignments = s2.alignments ++ [a]) ∧
      (¬ (a.ref_name ≠ [] ∧ ( required_prefix = [] ∨ required_prefix <+: a.ref_name) ∧
          (a.mapq : Int) ≥ min_mapq ∧ a.flag.testBit 8 = false) →
        s'.alignments = s2.alignments) := by
  unfold callback
  rw [hb]
  simp only []
  by_cases hr : a.ref_name = []
  · rw [if_pos hr]
    exact ⟨s2, rfl, rfl, rfl, rfl, fun h => absurd hr h.1, fun _ => rfl⟩
  · rw [if_neg hr, valid_prefix_eq _ _ hnul]
    simp only []
    have hpre : ( required_prefix = [] ∨ required_prefix <+: a.ref_name) ↔
        required_prefix <+: a.ref_name := by
      constructor
      · rintro (h | h)
        · rw [h]; exact List.nil_prefix
        · exact h
      · exact Or.inr
    have hprim : a.is_primary = true ↔ a.flag.testBit 8 = false := by
      rw [is_primary_eq]; cases a.flag.testBit 8 <;> simp
    refine ⟨_, rfl, ?_, ?_, ?_, ?_, ?_⟩
    · split <;> rfl
    · split <;> rfl
    · split <;> rfl
    · intro h
      rw [hpre, ← hprim] at h
      rw [if_pos ⟨by simpa using h.2.1, h.2.2.1, h.2.2.2⟩]
    · intro h
      rw [hpre, ← hprim] at h
      rw [if_neg]
      intro hh
      exact h ⟨hr, by simpa using hh.1, hh.2.1, hh.2.2⟩


/-- What the group-boundary step does to the state. -/
theorem group_boundary_spec (s s2 : ParseState) (a : SamElement)
    (h : group_boundary s a = .ok s2) :
    s2.l = s.l ∧
    ((s2.alignments = [] ∧ s2.calls = s.calls ++ [s.alignments] ∧ s.l ≠ 0 ∧
        s2.prev_query_name = s.prev_query_name) ∨
     (s2.alignments = s.alignments ∧ s2.calls = s.calls ∧ s2.prev_query_name = a.query_name ∧
        (s.l ≠ 0 → s.prev_query_name = a.query_name))) := by
  unfold group_boundary at h
  by_cases hl : s.l = 0
  · simp only [hl, if_true, ne_eq, not_true_eq_false, if_false] at h
    injection h with h
    subst h
    exact ⟨hl.symm, Or.inr ⟨rfl, rfl, rfl, fun h => absurd hl h⟩⟩
  · simp only [hl, if_false] at h
    by_cases hq : s.prev_query_name = a.query_name
    · simp only [hq, ne_eq, not_true_eq_false, if_false] at h
      injection h with h
      subst h
      exact ⟨rfl, Or.inr ⟨rfl, rfl, hq, fun _ => hq⟩⟩
    · simp only [ne_eq, hq, not_false_eq_true, if_true] at h
      cases hu : update_contact_map s.alignments s.contact_graph s.id_map with
      | error e => rw [hu] at h; cases h
      | ok r =>
        rw [hu] at h
        injection h with h
        subst h
        exact ⟨rfl, Or.inl ⟨rfl, rfl, hl, rfl⟩⟩

/-- What the callback does to the state after the group-boundary step. -/
theorem callback_spec ( required_prefix : CppString) (min_mapq : Int) (s s' : ParseState)
    (a : SamElement) (h : callback required_prefix min_mapq s a = .ok s') :
    ∃ s2, group_boundary s a = .ok s2 ∧ s'.calls = s2.calls ∧
      ((appended required_prefix min_mapq a = false ∧ a.ref_name = [] ∧ s' = s2) ∨
       (a.ref_name ≠ [] ∧ s'.l = s2.l + 1 ∧ s'.prev_query_name = a.query_name ∧
         s'.alignments =
           s2.alignments ++ (if appended required_prefix min_mapq a then [a] else []))) := by
  unfold callback at h
  cases hb : group_boundary s a with
  | error e => rw [hb] at h; cases h
  | ok s2 =>
    rw [hb] at h
    simp only [] at h
    refine ⟨s2, rfl, ?_⟩
    by_cases hr : a.ref_name = []
    · rw [if_pos hr] at h
      injection h with h
      subst h
      exact ⟨rfl, Or.inl ⟨by simp [appended, hr], hr, rfl⟩⟩
    · rw [if_neg hr] at h
      cases hv : valid_prefix a.ref_name required_prefix with
      | error e => rw [hv] at h; cases h
      | ok b =>
        rw [hv] at h
        simp only [] at h
        injection h with h
        subst h
        have happ : appended required_prefix min_mapq a =
            decide (b = true ∧ (a.mapq : Int) ≥ min_mapq ∧ a.is_primary = true) := by
          simp [appended, hr, hv, Bool.and_assoc]
        by_cases hc : b = true ∧ (a.mapq : Int) ≥ min_mapq ∧ a.is_primary = true
        · rw [if_pos hc]
          refine ⟨rfl, Or.inr ⟨hr, rfl, rfl, ?_⟩⟩
          rw [happ]; simp [hc]
        · rw [if_neg hc]
          refine ⟨rfl, Or.inr ⟨hr, rfl, rfl, ?_⟩⟩
          rw [happ]; simp [hc]

/-- One callback keeps the invariant. -/
theorem callback_invariant_step ( required_prefix : CppString) (min_mapq : Int)
    (seen : List SamElement) (s s' : ParseState) (a : SamElement)
    (hinv : callback_invariant required_prefix min_mapq seen s)
    (h : callback required_prefix min_mapq s a = .ok s') :
    callback_invariant required_prefix min_mapq (seen ++ [a]) s' := by
  obtain ⟨h0, hq, hc, hj⟩ := hinv
  obtain ⟨s2, hb, hcalls, hrest⟩ := callback_spec _ _ _ _ _ h
  obtain ⟨hl2, hb2⟩ := group_boundary_spec _ _ _ hb
  -- the state after the boundary check
  have h2 : (s2.l = 0 → s2.alignments = []) ∧
      (∀ x ∈ s2.alignments, x.query_name = s2.prev_query_name) ∧
      (∀ x ∈ s2.alignments, x.query_name = a.query_name) ∧
      (∀ g ∈ s2.calls, one_query_name g) ∧
      s2.calls.flatten ++ s2.alignments = seen.filter (appended required_prefix min_mapq) := by
    rcases hb2 with ⟨ha, hcs, hl, hp⟩ | ⟨ha, hcs, hp, hpq⟩
    · refine ⟨fun _ => ha, ?_, ?_, ?_, ?_⟩
      · rw [ha]; intro x hx; cases hx
      · rw [ha]; intro x hx; cases hx
      · intro g hg
        rw [hcs, List.mem_append, List.mem_singleton] at hg
        rcases hg with hg | hg
        · exact hc g hg
        · subst hg
          intro x hx y hy
          rw [hq x hx, hq y hy]
      · rw [hcs, ha, List.flatten_append]
        simpa using hj
    · have hall : ∀ x ∈ s2.alignments, x.query_name = a.query_name := by
        rw [ha]
        intro x hx
        by_cases hl : s.l = 0
        · rw [h0 hl] at hx; cases hx
        · rw [hq x hx, hpq hl]
      refine ⟨?_, ?_, hall, ?_, ?_⟩
      · rw [hl2, ha]; exact h0
      · rw [hp]; exact hall
      · rw [hcs]; exact hc
      · rw [hcs, ha]; exact hj
  obtain ⟨k0, kq, ka, kc, kj⟩ := h2
  rcases hrest with ⟨hf, _, he⟩ | ⟨_, hl', hp', ha'⟩
  · subst he
    refine ⟨k0, kq, kc, ?_⟩
    rw [List.filter_append, kj]
    simp [hf]
  · refine ⟨?_, ?_, ?_, ?_⟩
    · intro h; omega
    · rw [ha', hp']
      intro x hx
      rw [List.mem_append] at hx
      rcases hx with hx | hx
      · exact ka x hx
      · split at hx
        · rw [List.mem_singleton] at hx; rw [hx]
        · cases hx
    · rw [hcalls]; exact kc
    · rw [hcalls, ha', ← List.append_assoc, kj, List.filter_append]
      congr 1
      by_cases hap : appended required_prefix min_mapq a = true
      · simp [hap]
      · simp [hap]

/-- The reader's loop keeps the invariant over the records it got through. -/
theorem for_each_alignment_invariant ( required_prefix : CppString) (min_mapq : Int) :
    ∀ (rest seen : List SamElement) (s : ParseState),
      callback_invariant required_prefix min_mapq seen s →
      ∃ k, k ≤ rest.length ∧
        ((for_each_alignment (callback required_prefix min_mapq) s rest).2 = none →
          k = rest.length) ∧
        callback_invariant required_prefix min_mapq (seen ++ rest.take k)
          (for_each_alignment (callback required_prefix min_mapq) s rest).1 := by
  intro rest
  induction rest with
  | nil =>
    intro seen s hinv
    exact ⟨0, Nat.le_refl _, fun _ => rfl, by simpa [for_each_alignment] using hinv⟩
  | cons a rest ih =>
    intro seen s hinv
    cases hc : callback required_prefix min_mapq s a with
    | error e =>
      refine ⟨0, Nat.zero_le _, ?_, ?_⟩
      · simp [for_each_alignment, hc]
      · simpa [for_each_alignment, hc] using hinv
    | ok s' =>
      obtain ⟨k, hk, hnone, hk'⟩ := ih (seen ++ [a]) s' (callback_invariant_step _ _ _ _ _ _ hinv hc)
      refine ⟨k + 1, by simpa using hk, ?_, ?_⟩
      · simp only [for_each_alignment, hc]
        intro h
        simp [hnone h]
      · simp only [for_each_alignment, hc]
        simpa using hk'

/-- C10: for every stream, in the state `parse_unpaired_bam_file` is left in,
every group handed to `update_contact_map` carries a single query name, so do
the records still accumulated (the argument of any further call), and the
groups handed over followed by the accumulated records are exactly the appended
records of the part of the stream read so far, the whole stream when no
exception ended the run, each once and in stream order: no record is handed
over twice, the vector being cleared after every call. -/
theorem update_contact_map_calls_share_query_name (stream : List SamElement)
    (contact_graph : ContactGraph) (id_map : IncrementalIdMap) ( required_prefix : CppString)
    (min_mapq : Int) :
    (∀ g ∈ (parse_unpaired_bam_file stream contact_graph id_map required_prefix min_mapq).1.calls,
      one_query_name g) ∧
    one_query_name
      (parse_unpaired_bam_file stream contact_graph id_map required_prefix min_mapq).1.alignments ∧
    ∃ k, k ≤ stream.length ∧
      ((parse_unpaired_bam_file stream contact_graph id_map required_prefix min_mapq).2 = none →
        k = stream.length) ∧
      (parse_unpaired_bam_file stream contact_graph id_map required_prefix min_mapq).1.calls.flatten ++
        (parse_unpaired_bam_file stream contact_graph id_map required_prefix min_mapq).1.alignments =
        (stream.take k).filter (appended required_prefix min_mapq) := by
  have hinit : callback_invariant required_prefix min_mapq []
      (initial_state contact_graph id_map) := by
    refine ⟨fun _ => rfl, ?_, ?_, rfl⟩ <;> simp [initial_state]
  obtain ⟨k, hk, hnone, h0, hq, hc, hj⟩ :=
    for_each_alignment_invariant required_prefix min_mapq stream [] _ hinit
  refine ⟨hc, ?_, k, hk, hnone, by simpa using hj⟩
  intro x hx y hy
  exact (hq x hx).trans (hq y hy).symm


namespace IncrementalIdMap

/-- Appending keys does not move a key that is present. -/
theorem index_of_append_of_mem (key : CppString) (l₁ l₂ : List CppString) (h : key ∈ l₁) :
    index_of key (l₁ ++ l₂) = index_of key l₁ := by
  induction l₁ with
  | nil => cases h
  | cons k t ih =>
    simp only [List.cons_append, index_of]
    by_cases hk : k = key
    · simp [hk]
    · have : key ∈ t := by
        rcases List.mem_cons.mp h with h | h
        · exact absurd h.symm hk
        · exact h
      simp [hk, ih this]

/-- A key absent from the first part is looked for in the second. -/
theorem index_of_append_of_not_mem (key : CppString) (l₁ l₂ : List CppString) (h : key ∉ l₁) :
    index_of key (l₁ ++ l₂) = l₁.length + index_of key l₂ := by
  induction l₁ with
  | nil => simp
  | cons k t ih =>
    have hk : ¬ k = key := fun e => h (by simp [e])
    have ht : key ∉ t := fun e => h (List.mem_cons_of_mem _ e)
    rw [List.cons_append, index_of, if_neg hk, ih ht, List.length_cons]
    omega

/-- The position is below the length exactly for keys that are present. -/
theorem index_of_lt_length (key : CppString) (l : List CppString) :
    index_of key l < l.length ↔ key ∈ l := by
  induction l with
  | nil => simp [index_of]
  | cons k t ih =>
    simp only [index_of, List.length_cons, List.mem_cons]
    by_cases hk : k = key
    · simp [hk]
    · have : ¬ key = k := fun e => hk e.symm
      simp [hk, this, ih]

/-- The keys after `try_insert`. -/
theorem try_insert_mem (m : IncrementalIdMap) (k key : CppString) :
    key ∈ (m.try_insert k).2.keys ↔ key ∈ m.keys ∨ key = k := by
  unfold try_insert
  by_cases h : k ∈ m.keys
  · rw [if_pos h]
    constructor
    · exact Or.inl
    · rintro (h' | h')
      · exact h'
      · rw [h']; exact h
  · rw [if_neg h]; simp

/-- `try_insert` keeps the ids already issued. -/
theorem try_insert_id_of (m : IncrementalIdMap) (k key : CppString) (h : key ∈ m.keys) :
    (m.try_insert k).2.id_of key = m.id_of key := by
  unfold try_insert
  by_cases hk : k ∈ m.keys
  · rw [if_pos hk]
  · rw [if_neg hk]
    simp only [id_of]
    rw [index_of_append_of_mem _ _ _ h]

/-- The id `try_insert` returns is the id of the key afterwards. -/
theorem try_insert_fst (m : IncrementalIdMap) (k : CppString) :
    (m.try_insert k).1 = (m.try_insert k).2.id_of k := by
  unfold try_insert
  by_cases hk : k ∈ m.keys
  · rw [if_pos hk]
  · rw [if_neg hk]
    simp only [id_of]
    rw [index_of_append_of_not_mem _ _ _ hk]
    simp [index_of]

/-- `try_insert` of a registered key changes nothing. -/
theorem try_insert_of_mem (m : IncrementalIdMap) (k : CppString) (h : k ∈ m.keys) :
    m.try_insert k = (m.id_of k, m) := by
  unfold try_insert; rw [if_pos h]

/-- The keys after `insert_all`. -/
theorem insert_all_mem (ks : List CppString) : ∀ (m : IncrementalIdMap) (key : CppString),
    key ∈ (m.insert_all ks).keys ↔ key ∈ m.keys ∨ key ∈ ks := by
  induction ks with
  | nil => intro m key; simp [insert_all]
  | cons k ks ih =>
    intro m key
    rw [insert_all, ih, try_insert_mem]
    simp only [List.mem_cons]
    tauto

/-- `insert_all` keeps the ids already issued. -/
theorem insert_all_id_of (ks : List CppString) : ∀ (m : IncrementalIdMap) (key : CppString),
    key ∈ m.keys → (m.insert_all ks).id_of key = m.id_of key := by
  induction ks with
  | nil => intro m key _; rfl
  | cons k ks ih =>
    intro m key h
    rw [insert_all, ih _ _ ((try_insert_mem m k key).mpr (Or.inl h)), try_insert_id_of _ _ _ h]

/-- `insert_all` of registered keys changes nothing. -/
theorem insert_all_of_mem (ks : List CppString) (m : IncrementalIdMap)
    (h : ∀ k ∈ ks, k ∈ m.keys) : m.insert_all ks = m := by
  induction ks with
  | nil => rfl
  | cons k ks ih =>
    rw [insert_all, try_insert_of_mem _ _ (h k (List.mem_cons_self _ _))]
    exact ih (fun k' hk' => h k' (List.mem_cons_of_mem _ hk'))

end IncrementalIdMap

/-- The reference names of a group, record by record. -/
theorem ref_names_cons (a : SamElement) (rest : List SamElement) :
    ref_names (a :: rest) = a.ref_name :: ref_names rest := rfl

/-- The inner loop issues `pair_calls` for the final ids of the records. -/
theorem inner_loop_eq (x : Int) : ∀ (rest : List SamElement) (m : IncrementalIdMap),
    inner_loop x rest m =
      (((ref_names rest).map (m.insert_all (ref_names rest)).id_of).flatMap (pair_calls x),
        m.insert_all (ref_names rest)) := by
  intro rest
  induction rest with
  | nil => intro m; rfl
  | cons b rest ih =>
    intro m
    have hb : (m.try_insert b.ref_name).1 =
        ((m.try_insert b.ref_name).2.insert_all (ref_names rest)).id_of b.ref_name := by
      rw [IncrementalIdMap.insert_all_id_of _ _ _
        ((IncrementalIdMap.try_insert_mem m _ _).mpr (Or.inr rfl))]
      exact IncrementalIdMap.try_insert_fst m _
    simp only [inner_loop, ih, ref_names_cons, List.map_cons, IncrementalIdMap.insert_all,
      List.flatMap_cons, pair_calls, List.cons_append, List.nil_append]
    rw [hb]
    rfl

/-- The outer loop issues `group_calls` for the final ids of the records. -/
theorem outer_loop_eq : ∀ (alignments : List SamElement) (m : IncrementalIdMap),
    outer_loop alignments m =
      (group_calls ((ref_names alignments).map (m.insert_all (ref_names alignments)).id_of),
        m.insert_all (ref_names alignments)) := by
  intro alignments
  induction alignments with
  | nil => intro m; rfl
  | cons a rest ih =>
    intro m
    have hmem : ∀ k ∈ ref_names rest,
        k ∈ ((m.try_insert a.ref_name).2.insert_all (ref_names rest)).keys :=
      fun k hk => (IncrementalIdMap.insert_all_mem _ _ _).mpr (Or.inr hk)
    have hidem := IncrementalIdMap.insert_all_of_mem (ref_names rest) _ hmem
    have ha : (m.try_insert a.ref_name).1 =
        ((m.try_insert a.ref_name).2.insert_all (ref_names rest)).id_of a.ref_name := by
      rw [IncrementalIdMap.insert_all_id_of _ _ _
        ((IncrementalIdMap.try_insert_mem m _ _).mpr (Or.inr rfl))]
      exact IncrementalIdMap.try_insert_fst m _
    simp only [outer_loop, inner_loop_eq, ih, hidem, ref_names_cons, List.map_cons,
      IncrementalIdMap.insert_all, group_calls]
    rw [ha]
    rfl

/-! ## The graph calls of `update_contact_map` -/

/-- Within a group the group-boundary step only records the query name. -/
theorem group_boundary_same_query (s : ParseState) (a : SamElement)
    (h : s.l ≠ 0 → s.prev_query_name = a.query_name) :
    group_boundary s a = .ok { s with prev_query_name := a.query_name } := by
  unfold group_boundary
  by_cases hl : s.l = 0
  · simp [hl]
  · have := h hl
    simp only [hl, if_false, this, ne_eq, not_true_eq_false]
    rw [← this]

/-- Within a group the callback leaves calls, graph and registry alone. -/
theorem callback_same_query ( required_prefix : CppString) (min_mapq : Int) (s s' : ParseState)
    (a : SamElement) (h : s.l ≠ 0 → s.prev_query_name = a.query_name)
    (hc : callback required_prefix min_mapq s a = .ok s') :
    s'.calls = s.calls ∧ s'.contact_graph = s.contact_graph ∧ s'.id_map = s.id_map ∧
      (s'.l ≠ 0 → s'.prev_query_name = a.query_name) := by
  obtain ⟨s2, hb, hcalls, hrest⟩ := callback_spec _ _ _ _ _ hc
  rw [group_boundary_same_query s a h] at hb
  injection hb with hb
  subst hb
  unfold callback at hc
  rw [group_boundary_same_query s a h] at hc
  simp only [] at hc
  by_cases hr : a.ref_name = []
  · rw [if_pos hr] at hc
    injection hc with hc
    subst hc
    exact ⟨rfl, rfl, rfl, fun _ => rfl⟩
  · rw [if_neg hr] at hc
    cases hv : valid_prefix a.ref_name required_prefix with
    | error e => rw [hv] at hc; cases hc
    | ok b =>
      rw [hv] at hc
      simp only [] at hc
      injection hc with hc
      subst hc
      refine ⟨?_, ?_, ?_, fun _ => rfl⟩ <;> split <;> rfl

/-- A stream in which every record carries the same query name, a single group,
never reaches `update_contact_map`: the graph and the registry are returned as
they were passed in. -/
theorem single_group_leaves_graph_unchanged ( required_prefix : CppString) (min_mapq : Int)
    (q : CppString) : ∀ (stream : List SamElement) (s : ParseState),
    (∀ a ∈ stream, a.query_name = q) → (s.l ≠ 0 → s.prev_query_name = q) →
    (for_each_alignment (callback required_prefix min_mapq) s stream).1.calls = s.calls ∧
    (for_each_alignment (callback required_prefix min_mapq) s stream).1.contact_graph =
      s.contact_graph ∧
    (for_each_alignment (callback required_prefix min_mapq) s stream).1.id_map = s.id_map := by
  intro stream
  induction stream with
  | nil => intro s _ _; exact ⟨rfl, rfl, rfl⟩
  | cons a rest ih =>
    intro s hq hs
    have haq : a.query_name = q := hq a (List.mem_cons_self _ _)
    cases hc : callback required_prefix min_mapq s a with
    | error e => simp [for_each_alignment, hc]
    | ok s' =>
      obtain ⟨h1, h2, h3, h4⟩ := callback_same_query _ _ s s' a (haq ▸ hs) hc
      obtain ⟨k1, k2, k3⟩ := ih s' (fun b hb => hq b (List.mem_cons_of_mem _ hb)) (haq ▸ h4)
      simp only [for_each_alignment, hc]
      exact ⟨k1.trans h1, k2.trans h2, k3.trans h3⟩

/-! ## `update_contact_map` on any group, by the graph's reaction to a self-loop request -/

/-- On the group `A, A, B` a graph that stores self-loops ends with the edge
`A`-`B` at weight 2 and the self-loop on `A` at weight 1, a graph that ignores
them with the edge `A`-`B` alone; both give `A` coverage 2 and `B` coverage 1. -/
theorem repeated_name_group_evaluated :
    update_contact_map_under .stored [rec_mate1_A, rec_mate2_A, rec_q1_B]
        ContactGraph.empty { keys := [] } =
      .ok ({ nodes := [(1, { partition := 0, coverage := 1 }), (0, { partition := 0, coverage := 2 })],
             edge_weights := [((0, 1), 2), ((0, 0), 1)] }, { keys := [['A'], ['B']] }) ∧
    update_contact_map_under .ignored [rec_mate1_A, rec_mate2_A, rec_q1_B]
        ContactGraph.empty { keys := [] } =
      .ok ({ nodes := [(1, { partition := 0, coverage := 1 }), (0, { partition := 0, coverage := 2 })],
             edge_weights := [((0, 1), 2)] }, { keys := [['A'], ['B']] }) :=
  ⟨rfl, rfl⟩

/-! ## The code at concrete inputs -/

/-- Away from `tid = 0` the two overloads deliver the same four values. -/
theorem overloads_agree_off_first_reference (header : BamHeader) (alignment : BamRecord)
    (h : alignment.tid ≠ 0) :
    Bam.callback_arguments header alignment =
      ((Bam.callback_element header alignment).ref_name,
        (Bam.callback_element header alignment).query_name,
        (Bam.callback_element header alignment).mapq,
        (Bam.callback_element header alignment).flag) := by
  have : alignment.tid > 0 ↔ alignment.tid > -1 := by omega
  simp [Bam.callback_arguments, Bam.callback_element, this]

/-- C9: on a mapped record of the first reference sequence (`tid = 0`) the first
overload of `for_alignment_in_bam` delivers the empty reference name, the second
overload the name `target_name[0]`. -/
theorem first_overload_drops_first_reference :
    Bam.for_alignment_in_bam sample_header [record_on_first_reference] =
      [([], ['q', '1'], 60, 0)] ∧
    Bam.for_alignment_in_bam_elements sample_header [record_on_first_reference] =
      [{ ref_name := ['c', 't', 'g', '1'], query_name := ['q', '1'], mapq := 60, flag := 0 }] := by
  exact ⟨rfl, rfl⟩

/-- C1: on a stream made of one group with two surviving records on the
references `A` and `B`, `parse_unpaired_bam_file` returns with the two records
still in `alignments`, without any `update_contact_map` call and with the graph
and the registry empty; the call it does not make would have given the two
nodes and the edge of weight 1. -/
theorem last_group_is_not_applied :
    parse_unpaired_bam_file [rec_q1_A, rec_q1_B] ContactGraph.empty { keys := [] } [] 0 =
      ({ l := 2, prev_query_name := ['q', '1'], alignments := [rec_q1_A, rec_q1_B],
         contact_graph := ContactGraph.empty, id_map := { keys := [] }, calls := [] }, none) ∧
    update_contact_map [rec_q1_A, rec_q1_B] ContactGraph.empty { keys := [] } =
      .ok ({ nodes := [(1, { partition := 0, coverage := 1 }), (0, { partition := 0, coverage := 1 })],
             edge_weights := [((0, 1), 1)] }, { keys := [['A'], ['B']] }) := by
  exact ⟨rfl, rfl⟩

/-- A group in which two records share a reference name makes
`update_contact_map` request an edge from a node to itself. -/
theorem group_calls_self_loop (ids : List Int) (h : ¬ ids.Nodup) :
    ∃ a, GraphCall.try_insert_edge a a ∈ group_calls ids := by
  induction ids with
  | nil => exact absurd List.nodup_nil h
  | cons x rest ih =>
    by_cases hx : x ∈ rest
    · refine ⟨x, ?_⟩
      simp only [group_calls, List.mem_cons, List.mem_append, List.mem_flatMap]
      right; right; left
      exact ⟨x, hx, by simp [pair_calls]⟩
    · have hr : ¬ rest.Nodup := fun hr => h (List.nodup_cons.mpr ⟨hx, hr⟩)
      obtain ⟨a, ha⟩ := ih hr
      refine ⟨a, ?_⟩
      simp only [group_calls, List.mem_cons, List.mem_append]
      right; right; right
      exact ha

/-- Whenever two records of a group share a reference name, the calls of
`update_contact_map` contain a `try_insert_edge(a, a)`. -/
theorem update_contact_map_requests_self_loop (alignments : List SamElement)
    (m : IncrementalIdMap) (h : ¬ (ref_names alignments).Nodup) :
    ∃ a, GraphCall.try_insert_edge a a ∈ update_contact_map_calls alignments m := by
  unfold update_contact_map_calls
  rw [outer_loop_eq]
  exact group_calls_self_loop _ (fun hn => h (List.Nodup.of_map _ hn))

/-- C3: for the two mates of a read aligned to the same contig,
`update_contact_map` issues `try_insert_edge(0, 0)` and
`increment_edge_weight(0, 0, 1)`, and the call ends in the
`InvalidArgumentError` of the self-loop request. -/
theorem same_contig_mates_request_self_loop :
    update_contact_map_calls [rec_mate1_A, rec_mate2_A] { keys := [] } =
      [GraphCall.try_insert_node 0 0, GraphCall.increment_coverage 0 1,
       GraphCall.try_insert_node 0 0, GraphCall.try_insert_edge 0 0,
       GraphCall.increment_edge_weight 0 0 1,
       GraphCall.try_insert_node 0 0, GraphCall.increment_coverage 0 1] ∧
    update_contact_map [rec_mate1_A, rec_mate2_A] ContactGraph.empty { keys := [] } =
      .error .InvalidArgumentError := by
  exact ⟨rfl, rfl⟩

/-- C5, as stated, fails: with the prefix `"A\0"` the record on `A` is appended
although the prefix is not a prefix of its reference name, and with the prefix
`"A\0\0"` the loop reads `ref_name[2]`, past the terminator. -/
theorem nul_in_required_prefix_counterexample :
    (∃ s', callback ['A', NUL] 0 (initial_state ContactGraph.empty { keys := [] }) rec_q1_A =
        .ok s' ∧ s'.alignments = [rec_q1_A]) ∧
    ¬ (['A', NUL] <+: rec_q1_A.ref_name) ∧
    callback ['A', NUL, NUL] 0 (initial_state ContactGraph.empty { keys := [] }) rec_q1_A =
      .error .UndefinedBehaviour := by
  refine ⟨⟨_, rfl, rfl⟩, by decide, rfl⟩

/-- The callback on the first record of a stream, with the prefix `"A"`: the
record on `A` is appended. -/
theorem callback_appends_iff_witness :
    ∃ s', callback ['A'] 0 (initial_state ContactGraph.empty { keys := [] }) rec_q1_A = .ok s' ∧
      s'.alignments = [rec_q1_A] := by
  obtain ⟨s', h, _, _, _, hyes, _⟩ :=
    callback_appends_iff ['A'] 0 (initial_state ContactGraph.empty { keys := [] })
      { (initial_state ContactGraph.empty { keys := [] }) with prev_query_name := ['q', '1'] }
      rec_q1_A (by decide) rfl
  exact ⟨s', h, hyes ⟨by decide, Or.inr (by decide), by decide, by decide⟩⟩

/-- C7, as stated, fails: the score under `intended_partitions` is not greater
than the score with all ten nodes labelled 0. -/
theorem intended_score_below_all_zero :
    ∃ si s0, score_under intended_partitions = .ok si ∧
      score_under (all_same_label 0) = .ok s0 ∧ ¬ (s0 < si) :=
  ⟨18, 43, rfl, rfl, by decide⟩

/-- C7, amended: on the 10-node bubble graph the total consistency score is 18
under `intended_partitions`, 43 with all nodes labelled 0, 43 with all nodes
labelled 1 and 0 with all nodes labelled -1; so the intended labeling scores
strictly more than the all-unresolved one and strictly less than the other
two. -/
theorem bubble_graph_scores :
    score_under intended_partitions = .ok 18 ∧
    score_under (all_same_label 0) = .ok 43 ∧
    score_under (all_same_label 1) = .ok 43 ∧
    score_under (all_same_label (-1)) = .ok 0 :=
  ⟨rfl, rfl, rfl, rfl⟩

/-- The general part of C8 at the test's graph and its edge between 5 and 8. -/
theorem remove_edge_then_try_insert_edge_restores_witness :
    ∃ g, test_mutability_graph = .ok g ∧ g.Invariant ∧ g.has_edge 5 8 = true ∧
      ∃ g', (g.remove_edge 5 8).try_insert_edge 5 8 = .ok g' ∧ g'.nodes = g.nodes ∧
        (∀ x y, g'.has_edge x y = g.has_edge x y) ∧ g'.get_edge_weight 5 8 = some 0 := by
  have hinv : ContactGraph.Invariant
      { nodes := (List.range 10).reverse.map (fun i => ((i : Int), ({ partition := -1, coverage := 0 } : Node))),
        edge_weights := (test_mutability_pairs 0 10).reverse.map (fun p => (edge p.1 p.2, (0 : Int))) } := by
    unfold ContactGraph.Invariant
    decide
  obtain ⟨g', h, hn, he, hw, _⟩ := remove_edge_then_try_insert_edge_restores.1 _ 5 8 hinv rfl
  exact ⟨_, rfl, hinv, rfl, g', h, hn, he, hw⟩

end gfase
